import Mathlib

/-!
Shallow embedding of pwgen-rs (src/main.rs).

Characters are modelled as bytes (Nat values); a password is a list of bytes
(the Rust code builds a String but only ever pushes single ASCII bytes, so the
String layer is a bijective renaming).  The entropy source is modelled as a
list of bytes: reading from an exhausted list is the I/O failure of read_exact.
Every Rust expression of the form x % v.len() is modelled with an explicit
zero-divisor check, mirroring the panic of the Rust modulo operator.
-/

namespace Pwgen

/-- Error outcomes of the embedded program: an entropy-source read failure
(read_exact returning Err), or the panic raised by taking a value modulo 0. -/
inductive GenErr where
  | entropy : GenErr
  | divZero : GenErr
deriving DecidableEq, Repr

/-- Mirrors struct Config of src/main.rs (field for field). -/
structure Config where
  pw_length : Nat
  num_pw : Nat
  capitalize : Bool
  no_capitalize : Bool
  numerals : Bool
  no_numerals : Bool
  symbols : Bool
  remove_chars : Option (List Nat)
  secure : Bool
  ambiguous : Bool
  columns : Bool
  no_vowels : Bool
  help : Bool
deriving DecidableEq, Repr

/-- LOWERCASE = the 26 bytes of b"abcdefghijklmnopqrstuvwxyz" (97..122). -/
def LOWERCASE : List Nat := (List.range 26).map (fun i => 97 + i)

/-- UPPERCASE = the 26 bytes of b"ABCDEFGHIJKLMNOPQRSTUVWXYZ" (65..90). -/
def UPPERCASE : List Nat := (List.range 26).map (fun i => 65 + i)

/-- NUMERALS = the 10 bytes of b"0123456789" (48..57). -/
def NUMERALS : List Nat := (List.range 10).map (fun i => 48 + i)

/-- SYMBOLS = the 32 ASCII punctuation bytes of the source literal, in order:
codes 33..47, then 58..64, then 91..96, then 123..126. -/
def SYMBOLS : List Nat :=
  (List.range 15).map (fun i => 33 + i) ++ (List.range 7).map (fun i => 58 + i)
    ++ (List.range 6).map (fun i => 91 + i) ++ (List.range 4).map (fun i => 123 + i)

/-- VOWELS = the bytes of b"aeiouyAEIOUY". -/
def VOWELS : List Nat := [97, 101, 105, 111, 117, 121, 65, 69, 73, 79, 85, 89]

/-- AMBIGUOUS = the bytes of b"B8G6I1l0OQDS5Z2". -/
def AMBIGUOUS : List Nat := [66, 56, 71, 54, 73, 49, 108, 48, 79, 81, 68, 83, 53, 90, 50]

/-- CONSONANTS = the bytes of b"bcdfghjklmnpqrstvwxzBCDFGHJKLMNPQRSTVWXZ". -/
def CONSONANTS : List Nat :=
  [98, 99, 100, 102, 103, 104, 106, 107, 108, 109, 110,
   112, 113, 114, 115, 116, 118, 119, 120, 122,
   66, 67, 68, 70, 71, 72, 74, 75, 76, 77, 78,
   80, 81, 82, 83, 84, 86, 87, 88, 90]

/-- CONSONANTS_LOWER = the bytes of b"bcdfghjklmnpqrstvwxz". -/
def CONSONANTS_LOWER : List Nat :=
  [98, 99, 100, 102, 103, 104, 106, 107, 108, 109, 110,
   112, 113, 114, 115, 116, 118, 119, 120, 122]

/-- VOWELS_LOWER = the bytes of b"aeiouy". -/
def VOWELS_LOWER : List Nat := [97, 101, 105, 111, 117, 121]

/-- u8::is_ascii_uppercase on a byte. -/
def isUpperByte (c : Nat) : Bool := 65 ≤ c && c ≤ 90

/-- u8::is_ascii_digit on a byte. -/
def isDigitByte (c : Nat) : Bool := 48 ≤ c && c ≤ 57

/-- Membership of a byte in the user exclusion list; false when remove_chars
is None, exactly as the if-let pattern of the source reads. -/
def inRemove (cfg : Config) (c : Nat) : Bool :=
  match cfg.remove_chars with
  | some rm => rm.contains c
  | none => false

/-- The class-assembly part of build_charset, before the three retain calls. -/
def base_charset (cfg : Config) : List Nat :=
  LOWERCASE
    ++ (if cfg.capitalize && !cfg.no_capitalize then UPPERCASE else [])
    ++ (if cfg.numerals && !cfg.no_numerals then NUMERALS else [])
    ++ (if cfg.symbols then SYMBOLS else [])

/-- charset.retain dropping ambiguous bytes, performed only when
config.ambiguous is set. -/
def retainAmbiguous (cfg : Config) (l : List Nat) : List Nat :=
  if cfg.ambiguous then l.filter (fun c => !AMBIGUOUS.contains c) else l

/-- charset.retain dropping vowels, performed only when config.no_vowels
is set. -/
def retainVowels (cfg : Config) (l : List Nat) : List Nat :=
  if cfg.no_vowels then l.filter (fun c => !VOWELS.contains c) else l

/-- charset.retain dropping user-excluded bytes, performed only when
config.remove_chars is Some. -/
def retainRemoved (cfg : Config) (l : List Nat) : List Nat :=
  match cfg.remove_chars with
  | some rm => l.filter (fun c => !rm.contains c)
  | none => l

/-- build_charset of src/main.rs: lowercase always, uppercase and digits when
enabled and not forbidden, symbols when enabled, then the three retain filters
in the order of the source (ambiguous, vowels, user-excluded). -/
def build_charset (cfg : Config) : List Nat :=
  retainRemoved cfg (retainVowels cfg (retainAmbiguous cfg (base_charset cfg)))

/-- rng.read_exact for a single byte: yields the head of the stream, or the
I/O error when the stream is exhausted. -/
def readByte : List Nat → Except GenErr (Nat × List Nat)
  | [] => .error .entropy
  | b :: rest => .ok (b, rest)

/-- The per-position loop of generate_secure_password: one byte read per
position, mapped into the charset by modulo indexing. -/
def secure_loop (charset : List Nat) : Nat → List Nat → Except GenErr (List Nat × List Nat)
  | 0, rng => .ok ([], rng)
  | n + 1, rng =>
    match readByte rng with
    | .error e => .error e
    | .ok (b, rng1) =>
      if charset.length = 0 then .error .divZero
      else
        let c := charset.getD (b % charset.length) 0
        match secure_loop charset n rng1 with
        | .error e => .error e
        | .ok (pw, rng2) => .ok (c :: pw, rng2)

/-- generate_secure_password of src/main.rs: builds the charset, falls back to
"a".repeat(length) when it is empty, otherwise samples one byte per position. -/
def generate_secure_password (length : Nat) (cfg : Config) (rng : List Nat) :
    Except GenErr (List Nat × List Nat) :=
  let charset := build_charset cfg
  if charset = [] then .ok (List.replicate length 97, rng)
  else secure_loop charset length rng

/-- The rejection loop of generate_memorable_password for one position.
The source counts attempts upward and, on a rejection, increments and accepts
the candidate anyway once attempts exceeds 100; here fuel = 101 - attempts, so
the loop starts at fuel 101 and a rejection at fuel 1 accepts the candidate.
The fuel = 0 equation is unreachable from fuel 101. -/
def pick_fuel (charSet : List Nat) (cfg : Config) : Nat → List Nat → Except GenErr (Nat × List Nat)
  | 0, _ => .error .entropy
  | fuel + 1, rng =>
    match readByte rng with
    | .error e => .error e
    | .ok (b, rng1) =>
      if charSet.length = 0 then .error .divZero
      else
        let candidate := charSet.getD (b % charSet.length) 0
        if inRemove cfg candidate then
          if fuel = 0 then .ok (candidate, rng1) else pick_fuel charSet cfg fuel rng1
        else if cfg.ambiguous && AMBIGUOUS.contains candidate then
          if fuel = 0 then .ok (candidate, rng1) else pick_fuel charSet cfg fuel rng1
        else .ok (candidate, rng1)

/-- One position of pattern generation: the loop entered with attempts = 0. -/
def pick_char (charSet : List Nat) (cfg : Config) (rng : List Nat) :
    Except GenErr (Nat × List Nat) :=
  pick_fuel charSet cfg 101 rng

/-- The position loop of generate_memorable_password: even positions draw from
the consonant set, odd positions from the vowel set. -/
def mem_loop (consonants vowels : List Nat) (cfg : Config) :
    Nat → Nat → List Nat → Except GenErr (List Nat × List Nat)
  | _, 0, rng => .ok ([], rng)
  | i, n + 1, rng =>
    let charSet := if i % 2 = 0 then consonants else vowels
    match pick_char charSet cfg rng with
    | .error e => .error e
    | .ok (c, rng1) =>
      match mem_loop consonants vowels cfg (i + 1) n rng1 with
      | .error e => .error e
      | .ok (pw, rng2) => .ok (c :: pw, rng2)

/-- uppercase_filtered of apply_requirements: UPPERCASE minus ambiguous bytes
(when config.ambiguous) and minus user-excluded bytes. -/
def upper_filtered (cfg : Config) : List Nat :=
  UPPERCASE.filter (fun c => !(cfg.ambiguous && AMBIGUOUS.contains c) && !inRemove cfg c)

/-- numerals_filtered of apply_requirements. -/
def numerals_filtered (cfg : Config) : List Nat :=
  NUMERALS.filter (fun c => !(cfg.ambiguous && AMBIGUOUS.contains c) && !inRemove cfg c)

/-- symbols_filtered of apply_requirements: filtered only by the user
exclusion list, not by ambiguity. -/
def symbols_filtered (cfg : Config) : List Nat :=
  SYMBOLS.filter (fun c => !inRemove cfg c)

/-- First block of apply_requirements: inject an uppercase letter when the
requirement is active and unmet and the filtered class is non-empty. -/
def inject_upper (result : List Nat) (cfg : Config) (rng : List Nat) :
    Except GenErr (List Nat × List Nat) :=
  if cfg.capitalize && !cfg.no_capitalize && !result.any isUpperByte then
    let uf := upper_filtered cfg
    if uf = [] then .ok (result, rng)
    else
      match readByte rng with
      | .error e => .error e
      | .ok (b1, rng1) =>
        if uf.length = 0 then .error .divZero
        else
          let ch := uf.getD (b1 % uf.length) 0
          match readByte rng1 with
          | .error e => .error e
          | .ok (b2, rng2) =>
            if result.length = 0 then .error .divZero
            else .ok (result.set (b2 % result.length) ch, rng2)
  else .ok (result, rng)

/-- Second block of apply_requirements: inject a digit when required, missing
and available; the source nests the activity test and the presence test. -/
def inject_numeral (result : List Nat) (cfg : Config) (rng : List Nat) :
    Except GenErr (List Nat × List Nat) :=
  if cfg.numerals && !cfg.no_numerals then
    if result.any isDigitByte then .ok (result, rng)
    else
      let nf := numerals_filtered cfg
      if nf = [] then .ok (result, rng)
      else
        match readByte rng with
        | .error e => .error e
        | .ok (b1, rng1) =>
          if nf.length = 0 then .error .divZero
          else
            let ch := nf.getD (b1 % nf.length) 0
            match readByte rng1 with
            | .error e => .error e
            | .ok (b2, rng2) =>
              if result.length = 0 then .error .divZero
              else .ok (result.set (b2 % result.length) ch, rng2)
  else .ok (result, rng)

/-- Third block of apply_requirements: inject a symbol; presence is tested by
SYMBOLS membership and the class is filtered only by the user exclusions. -/
def inject_symbol (result : List Nat) (cfg : Config) (rng : List Nat) :
    Except GenErr (List Nat × List Nat) :=
  if cfg.symbols then
    if result.any (fun c => SYMBOLS.contains c) then .ok (result, rng)
    else
      let sf := symbols_filtered cfg
      if sf = [] then .ok (result, rng)
      else
        match readByte rng with
        | .error e => .error e
        | .ok (b1, rng1) =>
          if sf.length = 0 then .error .divZero
          else
            let ch := sf.getD (b1 % sf.length) 0
            match readByte rng1 with
            | .error e => .error e
            | .ok (b2, rng2) =>
              if result.length = 0 then .error .divZero
              else .ok (result.set (b2 % result.length) ch, rng2)
  else .ok (result, rng)

/-- apply_requirements of src/main.rs: the three blocks in source order,
uppercase then digit then symbol, threading the password and the stream. -/
def apply_requirements (password : List Nat) (cfg : Config) (rng : List Nat) :
    Except GenErr (List Nat × List Nat) :=
  match inject_upper password cfg rng with
  | .error e => .error e
  | .ok (r1, rng1) =>
    match inject_numeral r1 cfg rng1 with
    | .error e => .error e
    | .ok (r2, rng2) => inject_symbol r2 cfg rng2

/-- generate_memorable_password of src/main.rs: delegates to the secure
generator when no_vowels is set; otherwise alternates consonant and vowel
sub-alphabets (lowercase-only variants under no_capitalize) and finally runs
apply_requirements. -/
def generate_memorable_password (length : Nat) (cfg : Config) (rng : List Nat) :
    Except GenErr (List Nat × List Nat) :=
  if cfg.no_vowels then generate_secure_password length cfg rng
  else
    let sets := if cfg.no_capitalize then (CONSONANTS_LOWER, VOWELS_LOWER) else (CONSONANTS, VOWELS)
    match mem_loop sets.1 sets.2 cfg 0 length rng with
    | .error e => .error e
    | .ok (pw, rng1) => apply_requirements pw cfg rng1

/-- The per-password mode dispatch inside the loop of generate_passwords. -/
def generate_one (cfg : Config) (rng : List Nat) : Except GenErr (List Nat × List Nat) :=
  if cfg.secure then generate_secure_password cfg.pw_length cfg rng
  else generate_memorable_password cfg.pw_length cfg rng

/-- The counting loop of generate_passwords: any failure aborts the batch. -/
def gen_loop (cfg : Config) : Nat → List Nat → Except GenErr (List (List Nat) × List Nat)
  | 0, rng => .ok ([], rng)
  | n + 1, rng =>
    match generate_one cfg rng with
    | .error e => .error e
    | .ok (pw, rng1) =>
      match gen_loop cfg n rng1 with
      | .error e => .error e
      | .ok (ps, rng2) => .ok (pw :: ps, rng2)

/-- generate_passwords of src/main.rs: num_pw passwords from one stream. -/
def generate_passwords (cfg : Config) (rng : List Nat) :
    Except GenErr (List (List Nat) × List Nat) :=
  gen_loop cfg cfg.num_pw rng

/-- COLUMNS = 5 of src/main.rs. -/
def COLUMNS : Nat := 5

/-- row_buffers of print_passwords: rows = ceil(n / COLUMNS) buffers, password
i appended to buffer i % rows. -/
def row_buffers (passwords : List String) : List (List String) :=
  let rows := (passwords.length + COLUMNS - 1) / COLUMNS
  passwords.enum.foldl
    (fun bufs ip => bufs.set (ip.1 % rows) (bufs.getD (ip.1 % rows) [] ++ [ip.2]))
    (List.replicate rows [])

/-- max_widths of print_passwords: per column index, the maximum length over
the entries the rows hold at that index, starting from COLUMNS zeroes. -/
def max_widths (bufs : List (List String)) : List Nat :=
  bufs.foldl
    (fun ws row =>
      row.enum.foldl
        (fun ws ci => if ci.2.length > ws.getD ci.1 0 then ws.set ci.1 ci.2.length else ws)
        ws)
    (List.replicate COLUMNS 0)

/-- Left-justified padding of a cell to the column width, as the format
specifier of the source prints it. -/
def pad_right (s : String) (w : Nat) : String :=
  s ++ String.mk (List.replicate (w - s.length) (Char.ofNat 32))

/-- One printed row: cells padded to their column widths, separated by a
single space before every column but the first. -/
def render_row (row : List String) (ws : List Nat) : String :=
  row.enum.foldl
    (fun acc ci => acc ++ (if ci.1 > 0 then String.mk [Char.ofNat 32] else "") ++ pad_right ci.2 (ws.getD ci.1 0))
    ""

/-- print_passwords of src/main.rs, as the list of printed lines: one password
per line unless column mode is on and more than COLUMNS passwords exist, in
which case the row buffers are rendered with per-column widths. -/
def print_passwords (passwords : List String) (columns : Bool) : List String :=
  if !columns || passwords.length ≤ COLUMNS then passwords
  else
    let bufs := row_buffers passwords
    let ws := max_widths bufs
    bufs.map (fun row => render_row row ws)

/-! Helper lemmas about the embedded definitions. -/

/-- A getD at an in-range index is a member of the list. -/
lemma getD_mem {l : List Nat} {i d : Nat} (h : i < l.length) : l.getD i d ∈ l := by
  rw [List.getD_eq_getElem?_getD, List.getElem?_eq_getElem h]
  exact List.getElem_mem h

/-- Membership after the ambiguous retain filter. -/
lemma mem_retainAmbiguous {cfg : Config} {l : List Nat} {c : Nat} :
    c ∈ retainAmbiguous cfg l ↔
      c ∈ l ∧ ¬(cfg.ambiguous = true ∧ AMBIGUOUS.contains c = true) := by
  unfold retainAmbiguous
  cases h : cfg.ambiguous with
  | false => simp [h]
  | true => simp [h, List.mem_filter]

/-- Membership after the vowel retain filter. -/
lemma mem_retainVowels {cfg : Config} {l : List Nat} {c : Nat} :
    c ∈ retainVowels cfg l ↔
      c ∈ l ∧ ¬(cfg.no_vowels = true ∧ VOWELS.contains c = true) := by
  unfold retainVowels
  cases h : cfg.no_vowels with
  | false => simp [h]
  | true => simp [h, List.mem_filter]

/-- Membership after the user-exclusion retain filter. -/
lemma mem_retainRemoved {cfg : Config} {l : List Nat} {c : Nat} :
    c ∈ retainRemoved cfg l ↔ c ∈ l ∧ inRemove cfg c = false := by
  unfold retainRemoved inRemove
  cases h : cfg.remove_chars with
  | none => simp
  | some rm => simp [List.mem_filter]

/-- Membership in the assembled, unfiltered class union. -/
lemma mem_base_charset {cfg : Config} {c : Nat} :
    c ∈ base_charset cfg ↔
      c ∈ LOWERCASE
        ∨ ((cfg.capitalize && !cfg.no_capitalize) = true ∧ c ∈ UPPERCASE)
        ∨ ((cfg.numerals && !cfg.no_numerals) = true ∧ c ∈ NUMERALS)
        ∨ (cfg.symbols = true ∧ c ∈ SYMBOLS) := by
  unfold base_charset
  by_cases h1 : (cfg.capitalize && !cfg.no_capitalize) = true <;>
    by_cases h2 : (cfg.numerals && !cfg.no_numerals) = true <;>
      by_cases h3 : cfg.symbols = true <;>
        simp [h1, h2, h3, List.mem_append]

/-- Full membership characterization of build_charset. -/
lemma mem_build_charset {cfg : Config} {c : Nat} :
    c ∈ build_charset cfg ↔
      (c ∈ LOWERCASE
        ∨ ((cfg.capitalize && !cfg.no_capitalize) = true ∧ c ∈ UPPERCASE)
        ∨ ((cfg.numerals && !cfg.no_numerals) = true ∧ c ∈ NUMERALS)
        ∨ (cfg.symbols = true ∧ c ∈ SYMBOLS))
      ∧ ¬(cfg.ambiguous = true ∧ AMBIGUOUS.contains c = true)
      ∧ ¬(cfg.no_vowels = true ∧ VOWELS.contains c = true)
      ∧ inRemove cfg c = false := by
  unfold build_charset
  rw [mem_retainRemoved, mem_retainVowels, mem_retainAmbiguous, mem_base_charset]
  tauto

/-- Two list filters commute. -/
lemma filter_comm (p q : Nat → Bool) (l : List Nat) :
    (l.filter p).filter q = (l.filter q).filter p := by
  rw [List.filter_filter, List.filter_filter]
  exact List.filter_congr (fun x _ => Bool.and_comm (q x) (p x))

/-- The ambiguous and vowel retains commute. -/
lemma retainAmbiguous_retainVowels (cfg : Config) (l : List Nat) :
    retainAmbiguous cfg (retainVowels cfg l) = retainVowels cfg (retainAmbiguous cfg l) := by
  unfold retainAmbiguous retainVowels
  cases cfg.ambiguous <;> cases cfg.no_vowels <;> simp <;>
    exact List.filter_congr (fun x _ => Bool.and_comm _ _)

/-- The ambiguous and user-exclusion retains commute. -/
lemma retainAmbiguous_retainRemoved (cfg : Config) (l : List Nat) :
    retainAmbiguous cfg (retainRemoved cfg l) = retainRemoved cfg (retainAmbiguous cfg l) := by
  unfold retainAmbiguous retainRemoved
  cases cfg.remove_chars <;> cases cfg.ambiguous <;> simp <;>
    exact List.filter_congr (fun x _ => Bool.and_comm _ _)

/-- The vowel and user-exclusion retains commute. -/
lemma retainVowels_retainRemoved (cfg : Config) (l : List Nat) :
    retainVowels cfg (retainRemoved cfg l) = retainRemoved cfg (retainVowels cfg l) := by
  unfold retainVowels retainRemoved
  cases cfg.remove_chars <;> cases cfg.no_vowels <;> simp <;>
    exact List.filter_congr (fun x _ => Bool.and_comm _ _)

/-- Every byte of the uppercase table satisfies the uppercase predicate. -/
lemma UPPERCASE_upper : ∀ c ∈ UPPERCASE, isUpperByte c = true := by decide

/-- Every byte of the digit table satisfies the digit predicate. -/
lemma NUMERALS_digit : ∀ c ∈ NUMERALS, isDigitByte c = true := by decide

/-- No symbol byte is an ambiguous byte. -/
lemma SYMBOLS_not_ambiguous : ∀ c ∈ SYMBOLS, AMBIGUOUS.contains c = false := by decide

/-- The secure loop fills exactly one byte per position. -/
lemma secure_loop_length {cs : List Nat} :
    ∀ {n : Nat} {rng pw rng2 : List Nat},
      secure_loop cs n rng = .ok (pw, rng2) → pw.length = n := by
  intro n
  induction n with
  | zero =>
    intro rng pw rng2 h
    simp only [secure_loop, Except.ok.injEq, Prod.mk.injEq] at h
    rw [← h.1]
    rfl
  | succ n ih =>
    intro rng pw rng2 h
    cases rng with
    | nil => simp [secure_loop, readByte] at h
    | cons b rest =>
      simp only [secure_loop, readByte] at h
      by_cases hcs : cs.length = 0
      · simp [hcs] at h
      · rw [if_neg hcs] at h
        cases hrec : secure_loop cs n rest with
        | error e => rw [hrec] at h; cases h
        | ok pr =>
          obtain ⟨pw1, rng1⟩ := pr
          rw [hrec] at h
          simp only [Except.ok.injEq, Prod.mk.injEq] at h
          rw [← h.1]
          simp [ih hrec]

/-- Every byte the secure loop emits is drawn from the charset. -/
lemma secure_loop_mem {cs : List Nat} (hcs : cs ≠ []) :
    ∀ {n : Nat} {rng pw rng2 : List Nat},
      secure_loop cs n rng = .ok (pw, rng2) → ∀ c ∈ pw, c ∈ cs := by
  intro n
  induction n with
  | zero =>
    intro rng pw rng2 h
    simp only [secure_loop, Except.ok.injEq, Prod.mk.injEq] at h
    rw [← h.1]
    simp
  | succ n ih =>
    intro rng pw rng2 h
    cases rng with
    | nil => simp [secure_loop, readByte] at h
    | cons b rest =>
      simp only [secure_loop, readByte] at h
      have hlen : ¬cs.length = 0 := by simpa [List.length_eq_zero] using hcs
      rw [if_neg hlen] at h
      cases hrec : secure_loop cs n rest with
      | error e => rw [hrec] at h; cases h
      | ok pr =>
        obtain ⟨pw1, rng1⟩ := pr
        rw [hrec] at h
        simp only [Except.ok.injEq, Prod.mk.injEq] at h
        rw [← h.1]
        intro c hc
        rcases List.mem_cons.mp hc with hc | hc
        · rw [hc]
          exact getD_mem (Nat.mod_lt _ (Nat.pos_of_ne_zero hlen))
        · exact ih hrec c hc

/-- With a non-empty charset the secure loop never takes a value modulo 0. -/
lemma secure_loop_ne_divZero {cs : List Nat} (hcs : cs ≠ []) :
    ∀ {n : Nat} {rng : List Nat}, secure_loop cs n rng ≠ .error .divZero := by
  intro n
  induction n with
  | zero => intro rng h; simp [secure_loop] at h
  | succ n ih =>
    intro rng h
    cases rng with
    | nil => simp [secure_loop, readByte] at h
    | cons b rest =>
      simp only [secure_loop, readByte] at h
      have hlen : ¬cs.length = 0 := by simpa [List.length_eq_zero] using hcs
      rw [if_neg hlen] at h
      cases hrec : secure_loop cs n rest with
      | error e =>
        rw [hrec] at h
        cases h
        exact ih hrec
      | ok pr => obtain ⟨pw1, rng1⟩ := pr; rw [hrec] at h; cases h

/-- The secure generator preserves the requested length. -/
lemma generate_secure_length {len : Nat} {cfg : Config} {rng pw rng2 : List Nat}
    (h : generate_secure_password len cfg rng = .ok (pw, rng2)) : pw.length = len := by
  unfold generate_secure_password at h
  by_cases hc : build_charset cfg = []
  · rw [if_pos hc] at h
    simp only [Except.ok.injEq, Prod.mk.injEq] at h
    rw [← h.1]
    simp
  · rw [if_neg hc] at h
    exact secure_loop_length h

/-- The secure generator never takes a value modulo 0. -/
lemma generate_secure_ne_divZero {len : Nat} {cfg : Config} {rng : List Nat} :
    generate_secure_password len cfg rng ≠ .error .divZero := by
  unfold generate_secure_password
  by_cases hc : build_charset cfg = []
  · rw [if_pos hc]; intro h; cases h
  · rw [if_neg hc]; exact secure_loop_ne_divZero hc

/-- Definitional unfolding of one step of the rejection loop. -/
lemma pick_fuel_succ (cs : List Nat) (cfg : Config) (fuel b : Nat) (rest : List Nat) :
    pick_fuel cs cfg (fuel + 1) (b :: rest) =
      if cs.length = 0 then .error .divZero
      else
        if inRemove cfg (cs.getD (b % cs.length) 0) then
          if fuel = 0 then .ok (cs.getD (b % cs.length) 0, rest)
          else pick_fuel cs cfg fuel rest
        else if cfg.ambiguous && AMBIGUOUS.contains (cs.getD (b % cs.length) 0) then
          if fuel = 0 then .ok (cs.getD (b % cs.length) 0, rest)
          else pick_fuel cs cfg fuel rest
        else .ok (cs.getD (b % cs.length) 0, rest) := rfl

/-- Given a non-empty sub-alphabet and at least fuel bytes of entropy, the
rejection loop succeeds and consumes between 1 and fuel bytes. -/
lemma pick_fuel_spec {cs : List Nat} {cfg : Config} :
    ∀ {fuel : Nat} {rng : List Nat}, 1 ≤ fuel → fuel ≤ rng.length → cs ≠ [] →
      ∃ c k, 1 ≤ k ∧ k ≤ fuel ∧ pick_fuel cs cfg fuel rng = .ok (c, rng.drop k) := by
  intro fuel
  induction fuel with
  | zero => intro rng h1; exact absurd h1 (by omega)
  | succ fuel ih =>
    intro rng h1 h2 hcs
    cases rng with
    | nil => simp at h2
    | cons b rest =>
      have hlen : ¬cs.length = 0 := by simpa [List.length_eq_zero] using hcs
      by_cases hrm : inRemove cfg (cs.getD (b % cs.length) 0) = true
      · by_cases hf : fuel = 0
        · refine ⟨cs.getD (b % cs.length) 0, 1, le_refl 1, by omega, ?_⟩
          rw [pick_fuel_succ, if_neg hlen, if_pos hrm, if_pos hf]
          rfl
        · obtain ⟨c, k, hk1, hk2, hpk⟩ :=
            ih (by omega) (by simpa using Nat.le_of_succ_le_succ h2) hcs
          refine ⟨c, k + 1, by omega, by omega, ?_⟩
          rw [pick_fuel_succ, if_neg hlen, if_pos hrm, if_neg hf, List.drop_succ_cons]
          exact hpk
      · by_cases hamb : (cfg.ambiguous && AMBIGUOUS.contains (cs.getD (b % cs.length) 0)) = true
        · by_cases hf : fuel = 0
          · refine ⟨cs.getD (b % cs.length) 0, 1, le_refl 1, by omega, ?_⟩
            rw [pick_fuel_succ, if_neg hlen, if_neg hrm, if_pos hamb, if_pos hf]
            rfl
          · obtain ⟨c, k, hk1, hk2, hpk⟩ :=
              ih (by omega) (by simpa using Nat.le_of_succ_le_succ h2) hcs
            refine ⟨c, k + 1, by omega, by omega, ?_⟩
            rw [pick_fuel_succ, if_neg hlen, if_neg hrm, if_pos hamb, if_neg hf,
              List.drop_succ_cons]
            exact hpk
        · refine ⟨cs.getD (b % cs.length) 0, 1, le_refl 1, by omega, ?_⟩
          rw [pick_fuel_succ, if_neg hlen, if_neg hrm, if_neg hamb]
          rfl

/-- Under the ambiguity flag, the loop hands back an ambiguous byte only
through the retry fallback, that is after consuming all its fuel. -/
lemma pick_fuel_amb {cs : List Nat} {cfg : Config} (hA : cfg.ambiguous = true) :
    ∀ {fuel : Nat} {rng rng1 : List Nat} {c : Nat},
      pick_fuel cs cfg fuel rng = .ok (c, rng1) → AMBIGUOUS.contains c = true →
        rng1 = rng.drop fuel := by
  intro fuel
  induction fuel with
  | zero => intro rng rng1 c h; simp [pick_fuel] at h
  | succ fuel ih =>
    intro rng rng1 c h hc
    cases rng with
    | nil => simp [pick_fuel, readByte] at h
    | cons b rest =>
      simp only [pick_fuel, readByte] at h
      by_cases hlen : cs.length = 0
      · simp [hlen] at h
      · rw [if_neg hlen] at h
        by_cases hrm : inRemove cfg (cs.getD (b % cs.length) 0) = true
        · rw [if_pos hrm] at h
          by_cases hf : fuel = 0
          · rw [if_pos hf] at h
            simp only [Except.ok.injEq, Prod.mk.injEq] at h
            rw [← h.2, hf]
            simp
          · rw [if_neg hf] at h
            rw [ih h hc]
            simp
        · rw [if_neg hrm] at h
          by_cases hamb : (cfg.ambiguous && AMBIGUOUS.contains (cs.getD (b % cs.length) 0)) = true
          · rw [if_pos hamb] at h
            by_cases hf : fuel = 0
            · rw [if_pos hf] at h
              simp only [Except.ok.injEq, Prod.mk.injEq] at h
              rw [← h.2, hf]
              simp
            · rw [if_neg hf] at h
              rw [ih h hc]
              simp
          · rw [if_neg hamb] at h
            simp only [Except.ok.injEq, Prod.mk.injEq] at h
            rw [← h.1] at hc
            exact absurd (by rw [hA, Bool.true_and, hc]) hamb

/-- Every byte the rejection loop returns is drawn from its sub-alphabet. -/
lemma pick_fuel_mem {cs : List Nat} {cfg : Config} (hcs : cs ≠ []) :
    ∀ {fuel : Nat} {rng rng1 : List Nat} {c : Nat},
      pick_fuel cs cfg fuel rng = .ok (c, rng1) → c ∈ cs := by
  intro fuel
  induction fuel with
  | zero => intro rng rng1 c h; simp [pick_fuel] at h
  | succ fuel ih =>
    intro rng rng1 c h
    cases rng with
    | nil => simp [pick_fuel, readByte] at h
    | cons b rest =>
      simp only [pick_fuel, readByte] at h
      have hlen : ¬cs.length = 0 := by simpa [List.length_eq_zero] using hcs
      rw [if_neg hlen] at h
      have hmem : cs.getD (b % cs.length) 0 ∈ cs :=
        getD_mem (Nat.mod_lt _ (Nat.pos_of_ne_zero hlen))
      by_cases hrm : inRemove cfg (cs.getD (b % cs.length) 0) = true
      · rw [if_pos hrm] at h
        by_cases hf : fuel = 0
        · rw [if_pos hf] at h
          simp only [Except.ok.injEq, Prod.mk.injEq] at h
          rw [← h.1]
          exact hmem
        · rw [if_neg hf] at h
          exact ih h
      · rw [if_neg hrm] at h
        by_cases hamb : (cfg.ambiguous && AMBIGUOUS.contains (cs.getD (b % cs.length) 0)) = true
        · rw [if_pos hamb] at h
          by_cases hf : fuel = 0
          · rw [if_pos hf] at h
            simp only [Except.ok.injEq, Prod.mk.injEq] at h
            rw [← h.1]
            exact hmem
          · rw [if_neg hf] at h
            exact ih h
        · rw [if_neg hamb] at h
          simp only [Except.ok.injEq, Prod.mk.injEq] at h
          rw [← h.1]
          exact hmem

/-- With a non-empty sub-alphabet the rejection loop never divides by zero. -/
lemma pick_fuel_ne_divZero {cs : List Nat} {cfg : Config} (hcs : cs ≠ []) :
    ∀ {fuel : Nat} {rng : List Nat}, pick_fuel cs cfg fuel rng ≠ .error .divZero := by
  intro fuel
  induction fuel with
  | zero => intro rng h; simp [pick_fuel] at h
  | succ fuel ih =>
    intro rng h
    cases rng with
    | nil => simp [pick_fuel, readByte] at h
    | cons b rest =>
      simp only [pick_fuel, readByte] at h
      have hlen : ¬cs.length = 0 := by simpa [List.length_eq_zero] using hcs
      rw [if_neg hlen] at h
      by_cases hrm : inRemove cfg (cs.getD (b % cs.length) 0) = true
      · rw [if_pos hrm] at h
        by_cases hf : fuel = 0
        · rw [if_pos hf] at h; cases h
        · rw [if_neg hf] at h; exact ih h
      · rw [if_neg hrm] at h
        by_cases hamb : (cfg.ambiguous && AMBIGUOUS.contains (cs.getD (b % cs.length) 0)) = true
        · rw [if_pos hamb] at h
          by_cases hf : fuel = 0
          · rw [if_pos hf] at h; cases h
          · rw [if_neg hf] at h; exact ih h
        · rw [if_neg hamb] at h; cases h

/-- Definitional unfolding of one step of the position loop. -/
lemma mem_loop_succ (cons vows : List Nat) (cfg : Config) (i n : Nat) (rng : List Nat) :
    mem_loop cons vows cfg i (n + 1) rng =
      match pick_char (if i % 2 = 0 then cons else vows) cfg rng with
      | .error e => .error e
      | .ok (c, rng1) =>
        match mem_loop cons vows cfg (i + 1) n rng1 with
        | .error e => .error e
        | .ok (pw, rng2) => .ok (c :: pw, rng2) := rfl

/-- The pattern loop fills exactly one byte per position. -/
lemma mem_loop_length {cons vows : List Nat} {cfg : Config} :
    ∀ {n i : Nat} {rng pw rng2 : List Nat},
      mem_loop cons vows cfg i n rng = .ok (pw, rng2) → pw.length = n := by
  intro n
  induction n with
  | zero =>
    intro i rng pw rng2 h
    simp only [mem_loop, Except.ok.injEq, Prod.mk.injEq] at h
    rw [← h.1]
    rfl
  | succ n ih =>
    intro i rng pw rng2 h
    rw [mem_loop_succ] at h
    split at h
    · cases h
    · rename_i c rng1 hp
      split at h
      · cases h
      · rename_i pw1 rng2x hrec
        simp only [Except.ok.injEq, Prod.mk.injEq] at h
        rw [← h.1]
        simp [ih hrec]

/-- With non-empty sub-alphabets the pattern loop never divides by zero. -/
lemma mem_loop_ne_divZero {cons vows : List Nat} {cfg : Config}
    (hc : cons ≠ []) (hv : vows ≠ []) :
    ∀ {n i : Nat} {rng : List Nat}, mem_loop cons vows cfg i n rng ≠ .error .divZero := by
  intro n
  induction n with
  | zero => intro i rng h; simp [mem_loop] at h
  | succ n ih =>
    intro i rng h
    rw [mem_loop_succ] at h
    have hne : (if i % 2 = 0 then cons else vows) ≠ [] := by
      by_cases h2 : i % 2 = 0
      · rw [if_pos h2]; exact hc
      · rw [if_neg h2]; exact hv
    split at h
    · rename_i e hp
      cases h
      exact pick_fuel_ne_divZero hne hp
    · rename_i c rng1 hp
      split at h
      · rename_i e hrec
        cases h
        exact ih hrec
      · cases h

/-- The uppercase injection preserves the password length. -/
lemma inject_upper_length {r : List Nat} {cfg : Config} {rng r1 rng1 : List Nat}
    (h : inject_upper r cfg rng = .ok (r1, rng1)) : r1.length = r.length := by
  unfold inject_upper at h
  by_cases hact : (cfg.capitalize && !cfg.no_capitalize && !r.any isUpperByte) = true
  · rw [if_pos hact] at h
    by_cases huf : upper_filtered cfg = []
    · rw [if_pos huf] at h
      simp only [Except.ok.injEq, Prod.mk.injEq] at h
      rw [← h.1]
    · rw [if_neg huf] at h
      cases rng with
      | nil => cases h
      | cons b1 rest =>
        simp only [readByte] at h
        have hlen : ¬(upper_filtered cfg).length = 0 := by
          simpa [List.length_eq_zero] using huf
        rw [if_neg hlen] at h
        cases rest with
        | nil => cases h
        | cons b2 rest2 =>
          simp only [readByte] at h
          by_cases hr0 : r.length = 0
          · rw [if_pos hr0] at h; cases h
          · rw [if_neg hr0] at h
            simp only [Except.ok.injEq, Prod.mk.injEq] at h
            rw [← h.1]
            exact List.length_set r _ _
  · rw [if_neg hact] at h
    simp only [Except.ok.injEq, Prod.mk.injEq] at h
    rw [← h.1]

/-- On a non-empty password the uppercase injection never divides by zero. -/
lemma inject_upper_ne_divZero {r : List Nat} {cfg : Config} {rng : List Nat}
    (hr : r ≠ []) : inject_upper r cfg rng ≠ .error .divZero := by
  unfold inject_upper
  by_cases hact : (cfg.capitalize && !cfg.no_capitalize && !r.any isUpperByte) = true
  · rw [if_pos hact]
    by_cases huf : upper_filtered cfg = []
    · rw [if_pos huf]; intro h; cases h
    · rw [if_neg huf]
      cases rng with
      | nil => intro h; cases h
      | cons b1 rest =>
        simp only [readByte]
        have hlen : ¬(upper_filtered cfg).length = 0 := by
          simpa [List.length_eq_zero] using huf
        rw [if_neg hlen]
        cases rest with
        | nil => intro h; cases h
        | cons b2 rest2 =>
          simp only [readByte]
          have hr0 : ¬r.length = 0 := by simpa [List.length_eq_zero] using hr
          rw [if_neg hr0]
          intro h
          cases h
  · rw [if_neg hact]; intro h; cases h

/-- When the uppercase requirement is inactive or already met, the injection
is the identity and consumes no entropy. -/
lemma inject_upper_noop {r : List Nat} {cfg : Config} {rng : List Nat}
    (himpl : (cfg.capitalize && !cfg.no_capitalize) = true → r.any isUpperByte = true) :
    inject_upper r cfg rng = .ok (r, rng) := by
  unfold inject_upper
  cases hc : (cfg.capitalize && !cfg.no_capitalize) with
  | false => simp [hc]
  | true => simp [hc, himpl hc]

/-- When the filtered uppercase class is empty, the injection silently skips. -/
lemma inject_upper_empty {r : List Nat} {cfg : Config} {rng : List Nat}
    (huf : upper_filtered cfg = []) : inject_upper r cfg rng = .ok (r, rng) := by
  unfold inject_upper
  by_cases hact : (cfg.capitalize && !cfg.no_capitalize && !r.any isUpperByte) = true
  · rw [if_pos hact, if_pos huf]
  · rw [if_neg hact]

/-- When the uppercase requirement is active, the filtered class non-empty and
the password non-empty, the injected password contains an uppercase byte. -/
lemma inject_upper_ensures {r : List Nat} {cfg : Config} {rng r1 rng1 : List Nat}
    (hact : (cfg.capitalize && !cfg.no_capitalize) = true)
    (huf : upper_filtered cfg ≠ []) (hr : r ≠ [])
    (h : inject_upper r cfg rng = .ok (r1, rng1)) :
    ∃ c ∈ r1, isUpperByte c = true := by
  by_cases hany : r.any isUpperByte = true
  · rw [inject_upper_noop (fun _ => hany)] at h
    simp only [Except.ok.injEq, Prod.mk.injEq] at h
    rw [← h.1]
    exact List.any_eq_true.mp hany
  · have hcond : (cfg.capitalize && !cfg.no_capitalize && !r.any isUpperByte) = true := by
      rw [hact, Bool.eq_false_iff.mpr hany]
      rfl
    unfold inject_upper at h
    rw [if_pos hcond, if_neg huf] at h
    cases rng with
    | nil => cases h
    | cons b1 rest =>
      simp only [readByte] at h
      have hlen : ¬(upper_filtered cfg).length = 0 := by
        simpa [List.length_eq_zero] using huf
      rw [if_neg hlen] at h
      cases rest with
      | nil => cases h
      | cons b2 rest2 =>
        simp only [readByte] at h
        have hr0 : ¬r.length = 0 := by simpa [List.length_eq_zero] using hr
        rw [if_neg hr0] at h
        simp only [Except.ok.injEq, Prod.mk.injEq] at h
        have hch : (upper_filtered cfg).getD (b1 % (upper_filtered cfg).length) 0
            ∈ upper_filtered cfg :=
          getD_mem (Nat.mod_lt _ (Nat.pos_of_ne_zero hlen))
        refine ⟨(upper_filtered cfg).getD (b1 % (upper_filtered cfg).length) 0, ?_, ?_⟩
        · rw [← h.1]
          exact List.mem_set r _ (Nat.mod_lt _ (Nat.pos_of_ne_zero hr0)) _
        · exact UPPERCASE_upper _ (List.mem_filter.mp hch).1

/-- Under the ambiguity flag the uppercase injection never introduces an
ambiguous byte. -/
lemma inject_upper_nonamb {r : List Nat} {cfg : Config} {rng r1 rng1 : List Nat}
    (hA : cfg.ambiguous = true) (hall : ∀ c ∈ r, AMBIGUOUS.contains c = false)
    (h : inject_upper r cfg rng = .ok (r1, rng1)) :
    ∀ c ∈ r1, AMBIGUOUS.contains c = false := by
  unfold inject_upper at h
  by_cases hact : (cfg.capitalize && !cfg.no_capitalize && !r.any isUpperByte) = true
  · rw [if_pos hact] at h
    by_cases huf : upper_filtered cfg = []
    · rw [if_pos huf] at h
      simp only [Except.ok.injEq, Prod.mk.injEq] at h
      rw [← h.1]
      exact hall
    · rw [if_neg huf] at h
      cases rng with
      | nil => cases h
      | cons b1 rest =>
        simp only [readByte] at h
        have hlen : ¬(upper_filtered cfg).length = 0 := by
          simpa [List.length_eq_zero] using huf
        rw [if_neg hlen] at h
        cases rest with
        | nil => cases h
        | cons b2 rest2 =>
          simp only [readByte] at h
          by_cases hr0 : r.length = 0
          · rw [if_pos hr0] at h; cases h
          · rw [if_neg hr0] at h
            simp only [Except.ok.injEq, Prod.mk.injEq] at h
            rw [← h.1]
            intro c hcmem
            rcases List.mem_or_eq_of_mem_set hcmem with hcr | hceq
            · exact hall c hcr
            · have hch : (upper_filtered cfg).getD (b1 % (upper_filtered cfg).length) 0
                  ∈ upper_filtered cfg :=
                getD_mem (Nat.mod_lt _ (Nat.pos_of_ne_zero hlen))
              have hpred := (List.mem_filter.mp hch).2
              rw [hceq]
              rw [hA] at hpred
              simp only [Bool.true_and, Bool.and_eq_true, Bool.not_eq_true'] at hpred
              exact hpred.1
  · rw [if_neg hact] at h
    simp only [Except.ok.injEq, Prod.mk.injEq] at h
    rw [← h.1]
    exact hall

/-- The digit injection preserves the password length. -/
lemma inject_numeral_length {r : List Nat} {cfg : Config} {rng r1 rng1 : List Nat}
    (h : inject_numeral r cfg rng = .ok (r1, rng1)) : r1.length = r.length := by
  unfold inject_numeral at h
  by_cases hact : (cfg.numerals && !cfg.no_numerals) = true
  · rw [if_pos hact] at h
    by_cases hany : r.any isDigitByte = true
    · rw [if_pos hany] at h
      simp only [Except.ok.injEq, Prod.mk.injEq] at h
      rw [← h.1]
    · rw [if_neg hany] at h
      by_cases hnf : numerals_filtered cfg = []
      · rw [if_pos hnf] at h
        simp only [Except.ok.injEq, Prod.mk.injEq] at h
        rw [← h.1]
      · rw [if_neg hnf] at h
        cases rng with
        | nil => cases h
        | cons b1 rest =>
          simp only [readByte] at h
          have hlen : ¬(numerals_filtered cfg).length = 0 := by
            simpa [List.length_eq_zero] using hnf
          rw [if_neg hlen] at h
          cases rest with
          | nil => cases h
          | cons b2 rest2 =>
            simp only [readByte] at h
            by_cases hr0 : r.length = 0
            · rw [if_pos hr0] at h; cases h
            · rw [if_neg hr0] at h
              simp only [Except.ok.injEq, Prod.mk.injEq] at h
              rw [← h.1]
              exact List.length_set r _ _
  · rw [if_neg hact] at h
    simp only [Except.ok.injEq, Prod.mk.injEq] at h
    rw [← h.1]

/-- On a non-empty password the digit injection never divides by zero. -/
lemma inject_numeral_ne_divZero {r : List Nat} {cfg : Config} {rng : List Nat}
    (hr : r ≠ []) : inject_numeral r cfg rng ≠ .error .divZero := by
  unfold inject_numeral
  by_cases hact : (cfg.numerals && !cfg.no_numerals) = true
  · rw [if_pos hact]
    by_cases hany : r.any isDigitByte = true
    · rw [if_pos hany]; intro h; cases h
    · rw [if_neg hany]
      by_cases hnf : numerals_filtered cfg = []
      · rw [if_pos hnf]; intro h; cases h
      · rw [if_neg hnf]
        cases rng with
        | nil => intro h; cases h
        | cons b1 rest =>
          simp only [readByte]
          have hlen : ¬(numerals_filtered cfg).length = 0 := by
            simpa [List.length_eq_zero] using hnf
          rw [if_neg hlen]
          cases rest with
          | nil => intro h; cases h
          | cons b2 rest2 =>
            simp only [readByte]
            have hr0 : ¬r.length = 0 := by simpa [List.length_eq_zero] using hr
            rw [if_neg hr0]
            intro h
            cases h
  · rw [if_neg hact]; intro h; cases h

/-- When the digit requirement is inactive or already met, the injection is
the identity and consumes no entropy. -/
lemma inject_numeral_noop {r : List Nat} {cfg : Config} {rng : List Nat}
    (himpl : (cfg.numerals && !cfg.no_numerals) = true → r.any isDigitByte = true) :
    inject_numeral r cfg rng = .ok (r, rng) := by
  unfold inject_numeral
  by_cases hact : (cfg.numerals && !cfg.no_numerals) = true
  · rw [if_pos hact, if_pos (himpl hact)]
  · rw [if_neg hact]

/-- When the filtered digit class is empty, the injection silently skips. -/
lemma inject_numeral_empty {r : List Nat} {cfg : Config} {rng : List Nat}
    (hnf : numerals_filtered cfg = []) : inject_numeral r cfg rng = .ok (r, rng) := by
  unfold inject_numeral
  by_cases hact : (cfg.numerals && !cfg.no_numerals) = true
  · rw [if_pos hact]
    by_cases hany : r.any isDigitByte = true
    · rw [if_pos hany]
    · rw [if_neg hany, if_pos hnf]
  · rw [if_neg hact]

/-- When the digit requirement is active, the filtered class non-empty and the
password non-empty, the injected password contains a digit byte. -/
lemma inject_numeral_ensures {r : List Nat} {cfg : Config} {rng r1 rng1 : List Nat}
    (hact : (cfg.numerals && !cfg.no_numerals) = true)
    (hnf : numerals_filtered cfg ≠ []) (hr : r ≠ [])
    (h : inject_numeral r cfg rng = .ok (r1, rng1)) :
    ∃ c ∈ r1, isDigitByte c = true := by
  by_cases hany : r.any isDigitByte = true
  · rw [inject_numeral_noop (fun _ => hany)] at h
    simp only [Except.ok.injEq, Prod.mk.injEq] at h
    rw [← h.1]
    exact List.any_eq_true.mp hany
  · unfold inject_numeral at h
    rw [if_pos hact, if_neg hany, if_neg hnf] at h
    cases rng with
    | nil => cases h
    | cons b1 rest =>
      simp only [readByte] at h
      have hlen : ¬(numerals_filtered cfg).length = 0 := by
        simpa [List.length_eq_zero] using hnf
      rw [if_neg hlen] at h
      cases rest with
      | nil => cases h
      | cons b2 rest2 =>
        simp only [readByte] at h
        have hr0 : ¬r.length = 0 := by simpa [List.length_eq_zero] using hr
        rw [if_neg hr0] at h
        simp only [Except.ok.injEq, Prod.mk.injEq] at h
        have hch : (numerals_filtered cfg).getD (b1 % (numerals_filtered cfg).length) 0
            ∈ numerals_filtered cfg :=
          getD_mem (Nat.mod_lt _ (Nat.pos_of_ne_zero hlen))
        refine ⟨(numerals_filtered cfg).getD (b1 % (numerals_filtered cfg).length) 0, ?_, ?_⟩
        · rw [← h.1]
          exact List.mem_set r _ (Nat.mod_lt _ (Nat.pos_of_ne_zero hr0)) _
        · exact NUMERALS_digit _ (List.mem_filter.mp hch).1

/-- Under the ambiguity flag the digit injection never introduces an
ambiguous byte. -/
lemma inject_numeral_nonamb {r : List Nat} {cfg : Config} {rng r1 rng1 : List Nat}
    (hA : cfg.ambiguous = true) (hall : ∀ c ∈ r, AMBIGUOUS.contains c = false)
    (h : inject_numeral r cfg rng = .ok (r1, rng1)) :
    ∀ c ∈ r1, AMBIGUOUS.contains c = false := by
  unfold inject_numeral at h
  by_cases hact : (cfg.numerals && !cfg.no_numerals) = true
  · rw [if_pos hact] at h
    by_cases hany : r.any isDigitByte = true
    · rw [if_pos hany] at h
      simp only [Except.ok.injEq, Prod.mk.injEq] at h
      rw [← h.1]
      exact hall
    · rw [if_neg hany] at h
      by_cases hnf : numerals_filtered cfg = []
      · rw [if_pos hnf] at h
        simp only [Except.ok.injEq, Prod.mk.injEq] at h
        rw [← h.1]
        exact hall
      · rw [if_neg hnf] at h
        cases rng with
        | nil => cases h
        | cons b1 rest =>
          simp only [readByte] at h
          have hlen : ¬(numerals_filtered cfg).length = 0 := by
            simpa [List.length_eq_zero] using hnf
          rw [if_neg hlen] at h
          cases rest with
          | nil => cases h
          | cons b2 rest2 =>
            simp only [readByte] at h
            by_cases hr0 : r.length = 0
            · rw [if_pos hr0] at h; cases h
            · rw [if_neg hr0] at h
              simp only [Except.ok.injEq, Prod.mk.injEq] at h
              rw [← h.1]
              intro c hcmem
              rcases List.mem_or_eq_of_mem_set hcmem with hcr | hceq
              · exact hall c hcr
              · have hch : (numerals_filtered cfg).getD
                    (b1 % (numerals_filtered cfg).length) 0 ∈ numerals_filtered cfg :=
                  getD_mem (Nat.mod_lt _ (Nat.pos_of_ne_zero hlen))
                have hpred := (List.mem_filter.mp hch).2
                rw [hceq]
                rw [hA] at hpred
                simp only [Bool.true_and, Bool.and_eq_true, Bool.not_eq_true'] at hpred
                exact hpred.1
  · rw [if_neg hact] at h
    simp only [Except.ok.injEq, Prod.mk.injEq] at h
    rw [← h.1]
    exact hall

/-- The symbol injection preserves the password length. -/
lemma inject_symbol_length {r : List Nat} {cfg : Config} {rng r1 rng1 : List Nat}
    (h : inject_symbol r cfg rng = .ok (r1, rng1)) : r1.length = r.length := by
  unfold inject_symbol at h
  by_cases hact : cfg.symbols = true
  · rw [if_pos hact] at h
    by_cases hany : r.any (fun c => SYMBOLS.contains c) = true
    · rw [if_pos hany] at h
      simp only [Except.ok.injEq, Prod.mk.injEq] at h
      rw [← h.1]
    · rw [if_neg hany] at h
      by_cases hsf : symbols_filtered cfg = []
      · rw [if_pos hsf] at h
        simp only [Except.ok.injEq, Prod.mk.injEq] at h
        rw [← h.1]
      · rw [if_neg hsf] at h
        cases rng with
        | nil => cases h
        | cons b1 rest =>
          simp only [readByte] at h
          have hlen : ¬(symbols_filtered cfg).length = 0 := by
            simpa [List.length_eq_zero] using hsf
          rw [if_neg hlen] at h
          cases rest with
          | nil => cases h
          | cons b2 rest2 =>
            simp only [readByte] at h
            by_cases hr0 : r.length = 0
            · rw [if_pos hr0] at h; cases h
            · rw [if_neg hr0] at h
              simp only [Except.ok.injEq, Prod.mk.injEq] at h
              rw [← h.1]
              exact List.length_set r _ _
  · rw [if_neg hact] at h
    simp only [Except.ok.injEq, Prod.mk.injEq] at h
    rw [← h.1]

/-- On a non-empty password the symbol injection never divides by zero. -/
lemma inject_symbol_ne_divZero {r : List Nat} {cfg : Config} {rng : List Nat}
    (hr : r ≠ []) : inject_symbol r cfg rng ≠ .error .divZero := by
  unfold inject_symbol
  by_cases hact : cfg.symbols = true
  · rw [if_pos hact]
    by_cases hany : r.any (fun c => SYMBOLS.contains c) = true
    · rw [if_pos hany]; intro h; cases h
    · rw [if_neg hany]
      by_cases hsf : symbols_filtered cfg = []
      · rw [if_pos hsf]; intro h; cases h
      · rw [if_neg hsf]
        cases rng with
        | nil => intro h; cases h
        | cons b1 rest =>
          simp only [readByte]
          have hlen : ¬(symbols_filtered cfg).length = 0 := by
            simpa [List.length_eq_zero] using hsf
          rw [if_neg hlen]
          cases rest with
          | nil => intro h; cases h
          | cons b2 rest2 =>
            simp only [readByte]
            have hr0 : ¬r.length = 0 := by simpa [List.length_eq_zero] using hr
            rw [if_neg hr0]
            intro h
            cases h
  · rw [if_neg hact]; intro h; cases h

/-- When the symbol requirement is inactive or already met, the injection is
the identity and consumes no entropy. -/
lemma inject_symbol_noop {r : List Nat} {cfg : Config} {rng : List Nat}
    (himpl : cfg.symbols = true → r.any (fun c => SYMBOLS.contains c) = true) :
    inject_symbol r cfg rng = .ok (r, rng) := by
  unfold inject_symbol
  by_cases hact : cfg.symbols = true
  · rw [if_pos hact, if_pos (himpl hact)]
  · rw [if_neg hact]

/-- When the filtered symbol class is empty, the injection silently skips. -/
lemma inject_symbol_empty {r : List Nat} {cfg : Config} {rng : List Nat}
    (hsf : symbols_filtered cfg = []) : inject_symbol r cfg rng = .ok (r, rng) := by
  unfold inject_symbol
  by_cases hact : cfg.symbols = true
  · rw [if_pos hact]
    by_cases hany : r.any (fun c => SYMBOLS.contains c) = true
    · rw [if_pos hany]
    · rw [if_neg hany, if_pos hsf]
  · rw [if_neg hact]

/-- When the symbol requirement is active, the filtered class non-empty and
the password non-empty, the injected password contains a symbol byte. -/
lemma inject_symbol_ensures {r : List Nat} {cfg : Config} {rng r1 rng1 : List Nat}
    (hact : cfg.symbols = true)
    (hsf : symbols_filtered cfg ≠ []) (hr : r ≠ [])
    (h : inject_symbol r cfg rng = .ok (r1, rng1)) :
    ∃ c ∈ r1, SYMBOLS.contains c = true := by
  by_cases hany : r.any (fun c => SYMBOLS.contains c) = true
  · rw [inject_symbol_noop (fun _ => hany)] at h
    simp only [Except.ok.injEq, Prod.mk.injEq] at h
    rw [← h.1]
    exact List.any_eq_true.mp hany
  · unfold inject_symbol at h
    rw [if_pos hact, if_neg hany, if_neg hsf] at h
    cases rng with
    | nil => cases h
    | cons b1 rest =>
      simp only [readByte] at h
      have hlen : ¬(symbols_filtered cfg).length = 0 := by
        simpa [List.length_eq_zero] using hsf
      rw [if_neg hlen] at h
      cases rest with
      | nil => cases h
      | cons b2 rest2 =>
        simp only [readByte] at h
        have hr0 : ¬r.length = 0 := by simpa [List.length_eq_zero] using hr
        rw [if_neg hr0] at h
        simp only [Except.ok.injEq, Prod.mk.injEq] at h
        have hch : (symbols_filtered cfg).getD (b1 % (symbols_filtered cfg).length) 0
            ∈ symbols_filtered cfg :=
          getD_mem (Nat.mod_lt _ (Nat.pos_of_ne_zero hlen))
        refine ⟨(symbols_filtered cfg).getD (b1 % (symbols_filtered cfg).length) 0, ?_, ?_⟩
        · rw [← h.1]
          exact List.mem_set r _ (Nat.mod_lt _ (Nat.pos_of_ne_zero hr0)) _
        · have := (List.mem_filter.mp hch).1
          exact List.elem_eq_true_of_mem this

/-- The symbol injection never introduces an ambiguous byte, since no symbol
is ambiguous. -/
lemma inject_symbol_nonamb {r : List Nat} {cfg : Config} {rng r1 rng1 : List Nat}
    (hall : ∀ c ∈ r, AMBIGUOUS.contains c = false)
    (h : inject_symbol r cfg rng = .ok (r1, rng1)) :
    ∀ c ∈ r1, AMBIGUOUS.contains c = false := by
  unfold inject_symbol at h
  by_cases hact : cfg.symbols = true
  · rw [if_pos hact] at h
    by_cases hany : r.any (fun c => SYMBOLS.contains c) = true
    · rw [if_pos hany] at h
      simp only [Except.ok.injEq, Prod.mk.injEq] at h
      rw [← h.1]
      exact hall
    · rw [if_neg hany] at h
      by_cases hsf : symbols_filtered cfg = []
      · rw [if_pos hsf] at h
        simp only [Except.ok.injEq, Prod.mk.injEq] at h
        rw [← h.1]
        exact hall
      · rw [if_neg hsf] at h
        cases rng with
        | nil => cases h
        | cons b1 rest =>
          simp only [readByte] at h
          have hlen : ¬(symbols_filtered cfg).length = 0 := by
            simpa [List.length_eq_zero] using hsf
          rw [if_neg hlen] at h
          cases rest with
          | nil => cases h
          | cons b2 rest2 =>
            simp only [readByte] at h
            by_cases hr0 : r.length = 0
            · rw [if_pos hr0] at h; cases h
            · rw [if_neg hr0] at h
              simp only [Except.ok.injEq, Prod.mk.injEq] at h
              rw [← h.1]
              intro c hcmem
              rcases List.mem_or_eq_of_mem_set hcmem with hcr | hceq
              · exact hall c hcr
              · have hch : (symbols_filtered cfg).getD
                    (b1 % (symbols_filtered cfg).length) 0 ∈ symbols_filtered cfg :=
                  getD_mem (Nat.mod_lt _ (Nat.pos_of_ne_zero hlen))
                rw [hceq]
                exact SYMBOLS_not_ambiguous _ (List.mem_filter.mp hch).1
  · rw [if_neg hact] at h
    simp only [Except.ok.injEq, Prod.mk.injEq] at h
    rw [← h.1]
    exact hall

/-- The first injection failing makes enforcement fail with the same error. -/
lemma apply_requirements_upper_err {pw : List Nat} {cfg : Config} {rng : List Nat}
    {e : GenErr} (h : inject_upper pw cfg rng = .error e) :
    apply_requirements pw cfg rng = .error e := by
  unfold apply_requirements
  rw [h]

/-- After a successful first injection, enforcement continues with the digit
and symbol blocks on the updated password. -/
lemma apply_requirements_upper_ok {pw : List Nat} {cfg : Config} {rng r1 rng1 : List Nat}
    (h : inject_upper pw cfg rng = .ok (r1, rng1)) :
    apply_requirements pw cfg rng =
      match inject_numeral r1 cfg rng1 with
      | .error e => .error e
      | .ok (r2, rng2) => inject_symbol r2 cfg rng2 := by
  unfold apply_requirements
  rw [h]

/-- A successful enforcement decomposes into three successful injections. -/
lemma apply_requirements_parts {pw : List Nat} {cfg : Config} {rng pw3 rng3 : List Nat}
    (h : apply_requirements pw cfg rng = .ok (pw3, rng3)) :
    ∃ pw1 rng1 pw2 rng2,
      inject_upper pw cfg rng = .ok (pw1, rng1) ∧
        inject_numeral pw1 cfg rng1 = .ok (pw2, rng2) ∧
          inject_symbol pw2 cfg rng2 = .ok (pw3, rng3) := by
  unfold apply_requirements at h
  split at h
  · cases h
  · rename_i r1 rng1 h1
    split at h
    · cases h
    · rename_i r2 rng2 h2
      exact ⟨r1, rng1, r2, rng2, h1, h2, h⟩

/-- Enforcement never changes the password length. -/
lemma apply_requirements_length {pw : List Nat} {cfg : Config} {rng pw3 rng3 : List Nat}
    (h : apply_requirements pw cfg rng = .ok (pw3, rng3)) : pw3.length = pw.length := by
  obtain ⟨r1, rng1, r2, rng2, h1, h2, h3⟩ := apply_requirements_parts h
  rw [inject_symbol_length h3, inject_numeral_length h2, inject_upper_length h1]

/-- On a non-empty password the enforcement never divides by zero. -/
lemma apply_requirements_ne_divZero {pw : List Nat} {cfg : Config} {rng : List Nat}
    (hr : pw ≠ []) : apply_requirements pw cfg rng ≠ .error .divZero := by
  unfold apply_requirements
  intro h
  split at h
  · rename_i e h1
    cases h
    exact inject_upper_ne_divZero hr h1
  · rename_i r1 rng1 h1
    have hr1 : r1 ≠ [] := by
      have hl := inject_upper_length h1
      intro hnil
      rw [hnil] at hl
      exact hr (List.length_eq_zero.mp hl.symm)
    split at h
    · rename_i e h2
      cases h
      exact inject_numeral_ne_divZero hr1 h2
    · rename_i r2 rng2 h2
      have hr2 : r2 ≠ [] := by
        have hl := inject_numeral_length h2
        intro hnil
        rw [hnil] at hl
        exact hr1 (List.length_eq_zero.mp hl.symm)
      exact inject_symbol_ne_divZero hr2 h

/-- Enforcing a password that already meets every active requirement is the
identity and consumes no entropy. -/
lemma apply_requirements_noop {pw : List Nat} {cfg : Config} {rng : List Nat}
    (hU : (cfg.capitalize && !cfg.no_capitalize) = true → pw.any isUpperByte = true)
    (hN : (cfg.numerals && !cfg.no_numerals) = true → pw.any isDigitByte = true)
    (hS : cfg.symbols = true → pw.any (fun c => SYMBOLS.contains c) = true) :
    apply_requirements pw cfg rng = .ok (pw, rng) := by
  unfold apply_requirements
  simp only [inject_upper_noop hU, inject_numeral_noop hN, inject_symbol_noop hS]

/-- With all three filtered classes empty, enforcement silently skips every
injection rather than failing. -/
lemma apply_requirements_empty {pw : List Nat} {cfg : Config} {rng : List Nat}
    (hU : upper_filtered cfg = []) (hN : numerals_filtered cfg = [])
    (hS : symbols_filtered cfg = []) :
    apply_requirements pw cfg rng = .ok (pw, rng) := by
  unfold apply_requirements
  simp only [inject_upper_empty hU, inject_numeral_empty hN, inject_symbol_empty hS]

/-- Under the ambiguity flag, enforcement never introduces an ambiguous byte. -/
lemma apply_requirements_nonamb {pw : List Nat} {cfg : Config} {rng pw3 rng3 : List Nat}
    (hA : cfg.ambiguous = true) (hall : ∀ c ∈ pw, AMBIGUOUS.contains c = false)
    (h : apply_requirements pw cfg rng = .ok (pw3, rng3)) :
    ∀ c ∈ pw3, AMBIGUOUS.contains c = false := by
  obtain ⟨r1, rng1, r2, rng2, h1, h2, h3⟩ := apply_requirements_parts h
  exact inject_symbol_nonamb
    (inject_numeral_nonamb hA (inject_upper_nonamb hA hall h1) h2) h3

/-- With the symbol requirement active, available and a non-empty password,
the enforced password contains a symbol. -/
lemma apply_requirements_symbol_ensured {pw : List Nat} {cfg : Config}
    {rng pw3 rng3 : List Nat} (hact : cfg.symbols = true)
    (hsf : symbols_filtered cfg ≠ []) (hr : pw ≠ [])
    (h : apply_requirements pw cfg rng = .ok (pw3, rng3)) :
    ∃ c ∈ pw3, SYMBOLS.contains c = true := by
  obtain ⟨r1, rng1, r2, rng2, h1, h2, h3⟩ := apply_requirements_parts h
  have hr1 : r1 ≠ [] := by
    have hl := inject_upper_length h1
    intro hnil
    rw [hnil] at hl
    exact hr (List.length_eq_zero.mp hl.symm)
  have hr2 : r2 ≠ [] := by
    have hl := inject_numeral_length h2
    intro hnil
    rw [hnil] at hl
    exact hr1 (List.length_eq_zero.mp hl.symm)
  exact inject_symbol_ensures hact hsf hr2 h3

/-- With the symbol requirement off and the digit requirement active and
available, the enforced non-empty password contains a digit. -/
lemma apply_requirements_digit_ensured {pw : List Nat} {cfg : Config}
    {rng pw3 rng3 : List Nat} (hsymb : cfg.symbols = false)
    (hact : (cfg.numerals && !cfg.no_numerals) = true)
    (hnf : numerals_filtered cfg ≠ []) (hr : pw ≠ [])
    (h : apply_requirements pw cfg rng = .ok (pw3, rng3)) :
    ∃ c ∈ pw3, isDigitByte c = true := by
  obtain ⟨r1, rng1, r2, rng2, h1, h2, h3⟩ := apply_requirements_parts h
  have hr1 : r1 ≠ [] := by
    have hl := inject_upper_length h1
    intro hnil
    rw [hnil] at hl
    exact hr (List.length_eq_zero.mp hl.symm)
  have hdig := inject_numeral_ensures hact hnf hr1 h2
  have hid : inject_symbol r2 cfg rng2 = .ok (r2, rng2) :=
    inject_symbol_noop (fun hs => absurd hs (by rw [hsymb]; simp))
  rw [hid] at h3
  simp only [Except.ok.injEq, Prod.mk.injEq] at h3
  rw [← h3.1]
  exact hdig

/-- With the symbol and digit requirements off and the uppercase requirement
active and available, the enforced non-empty password contains an uppercase
letter. -/
lemma apply_requirements_upper_ensured {pw : List Nat} {cfg : Config}
    {rng pw3 rng3 : List Nat} (hsymb : cfg.symbols = false)
    (hnum : (cfg.numerals && !cfg.no_numerals) = false)
    (hact : (cfg.capitalize && !cfg.no_capitalize) = true)
    (huf : upper_filtered cfg ≠ []) (hr : pw ≠ [])
    (h : apply_requirements pw cfg rng = .ok (pw3, rng3)) :
    ∃ c ∈ pw3, isUpperByte c = true := by
  obtain ⟨r1, rng1, r2, rng2, h1, h2, h3⟩ := apply_requirements_parts h
  have hup := inject_upper_ensures hact huf hr h1
  have hidN : inject_numeral r1 cfg rng1 = .ok (r1, rng1) :=
    inject_numeral_noop (fun hn => absurd hn (by rw [hnum]; simp))
  rw [hidN] at h2
  simp only [Except.ok.injEq, Prod.mk.injEq] at h2
  have hidS : inject_symbol r2 cfg rng2 = .ok (r2, rng2) :=
    inject_symbol_noop (fun hs => absurd hs (by rw [hsymb]; simp))
  rw [hidS] at h3
  simp only [Except.ok.injEq, Prod.mk.injEq] at h3
  rw [← h3.1, ← h2.1]
  exact hup

/-- The memorable generator preserves the requested length. -/
lemma generate_memorable_length {len : Nat} {cfg : Config} {rng pw rng2 : List Nat}
    (h : generate_memorable_password len cfg rng = .ok (pw, rng2)) : pw.length = len := by
  unfold generate_memorable_password at h
  by_cases hnv : cfg.no_vowels = true
  · rw [if_pos hnv] at h
    exact generate_secure_length h
  · rw [if_neg hnv] at h
    split at h
    · dsimp only at h
      split at h
      · cases h
      · rename_i pw1 rng1 hml
        rw [apply_requirements_length h, mem_loop_length hml]
    · dsimp only at h
      split at h
      · cases h
      · rename_i pw1 rng1 hml
        rw [apply_requirements_length h, mem_loop_length hml]

/-- For a positive length the memorable generator never divides by zero. -/
lemma generate_memorable_ne_divZero {len : Nat} {cfg : Config} {rng : List Nat}
    (hlen : 1 ≤ len) : generate_memorable_password len cfg rng ≠ .error .divZero := by
  unfold generate_memorable_password
  by_cases hnv : cfg.no_vowels = true
  · rw [if_pos hnv]
    exact generate_secure_ne_divZero
  · rw [if_neg hnv]
    intro h
    split at h
    · dsimp only at h
      split at h
      · rename_i e hml
        cases h
        exact mem_loop_ne_divZero (by decide) (by decide) hml
      · rename_i pw1 rng1 hml
        have hne : pw1 ≠ [] := by
          have hl := mem_loop_length hml
          intro hnil
          rw [hnil] at hl
          simp at hl
          omega
        exact apply_requirements_ne_divZero hne h
    · dsimp only at h
      split at h
      · rename_i e hml
        cases h
        exact mem_loop_ne_divZero (by decide) (by decide) hml
      · rename_i pw1 rng1 hml
        have hne : pw1 ≠ [] := by
          have hl := mem_loop_length hml
          intro hnil
          rw [hnil] at hl
          simp at hl
          omega
        exact apply_requirements_ne_divZero hne h

/-- The per-password dispatch preserves the requested length. -/
lemma generate_one_length {cfg : Config} {rng pw rng2 : List Nat}
    (h : generate_one cfg rng = .ok (pw, rng2)) : pw.length = cfg.pw_length := by
  unfold generate_one at h
  by_cases hs : cfg.secure = true
  · rw [if_pos hs] at h
    exact generate_secure_length h
  · rw [if_neg hs] at h
    exact generate_memorable_length h

/-- For a positive length the dispatch never divides by zero. -/
lemma generate_one_ne_divZero {cfg : Config} {rng : List Nat}
    (hlen : 1 ≤ cfg.pw_length) : generate_one cfg rng ≠ .error .divZero := by
  unfold generate_one
  by_cases hs : cfg.secure = true
  · rw [if_pos hs]
    exact generate_secure_ne_divZero
  · rw [if_neg hs]
    exact generate_memorable_ne_divZero hlen

/-- Definitional unfolding of one step of the batch loop. -/
lemma gen_loop_succ (cfg : Config) (n : Nat) (rng : List Nat) :
    gen_loop cfg (n + 1) rng =
      match generate_one cfg rng with
      | .error e => .error e
      | .ok (pw, rng1) =>
        match gen_loop cfg n rng1 with
        | .error e => .error e
        | .ok (ps, rng2) => .ok (pw :: ps, rng2) := rfl

/-- A successful batch holds exactly the requested number of passwords. -/
lemma gen_loop_length {cfg : Config} :
    ∀ {n : Nat} {rng ps rng2}, gen_loop cfg n rng = .ok (ps, rng2) → ps.length = n := by
  intro n
  induction n with
  | zero =>
    intro rng ps rng2 h
    simp only [gen_loop, Except.ok.injEq, Prod.mk.injEq] at h
    rw [← h.1]
    rfl
  | succ n ih =>
    intro rng ps rng2 h
    rw [gen_loop_succ] at h
    split at h
    · cases h
    · rename_i pw rng1 hone
      split at h
      · cases h
      · rename_i ps1 rng2x hrec
        simp only [Except.ok.injEq, Prod.mk.injEq] at h
        rw [← h.1]
        simp [ih hrec]

/-- For a positive length the batch loop never divides by zero. -/
lemma gen_loop_ne_divZero {cfg : Config} (hlen : 1 ≤ cfg.pw_length) :
    ∀ {n : Nat} {rng : List Nat}, gen_loop cfg n rng ≠ .error .divZero := by
  intro n
  induction n with
  | zero => intro rng h; simp [gen_loop] at h
  | succ n ih =>
    intro rng h
    rw [gen_loop_succ] at h
    split at h
    · rename_i e hone
      cases h
      exact generate_one_ne_divZero hlen hone
    · rename_i pw rng1 hone
      split at h
      · rename_i e hrec
        cases h
        exact ih hrec
      · cases h

/-! Concrete configurations used at the instances below. -/

/-- Config::default of the source. -/
def cfgDefault : Config :=
  ⟨8, 160, true, false, true, false, false, none, false, false, true, false, false⟩

/-- Secure mode, one password of length 1, everything else default. -/
def cfgSecure1 : Config :=
  ⟨1, 1, true, false, true, false, false, none, true, false, true, false, false⟩

/-- Default configuration with the symbol requirement on, length 4. -/
def cfgSymbols4 : Config :=
  ⟨4, 1, true, false, true, false, true, none, false, false, true, false, false⟩

/-- Pattern mode with ambiguity exclusion, uppercase and digits disabled. -/
def cfgPatternAmb : Config :=
  ⟨1, 1, true, true, true, true, false, none, false, true, true, false, false⟩

/-- Default configuration with ambiguity exclusion. -/
def cfgAmb : Config :=
  ⟨8, 160, true, false, true, false, false, none, false, true, true, false, false⟩

/-- Default configuration whose user exclusion list removes every uppercase
letter. -/
def cfgRemoveUpper : Config :=
  ⟨8, 160, true, false, true, false, false, some UPPERCASE, false, false, true, false, false⟩

/-- Default configuration with the vowel exclusion flag. -/
def cfgNoVowels : Config :=
  ⟨8, 160, true, false, true, false, false, none, false, false, true, true, false⟩

/-- Configuration whose user exclusion list removes the whole alphabet. -/
def cfgRemoveAll : Config :=
  ⟨8, 160, true, false, true, false, false,
    some (LOWERCASE ++ UPPERCASE ++ NUMERALS ++ SYMBOLS), false, false, true, false, false⟩

/-- Configuration whose user exclusion list empties all three requirement
classes while the symbol requirement is on. -/
def cfgRemoveClasses : Config :=
  ⟨8, 160, true, false, true, false, true,
    some (UPPERCASE ++ NUMERALS ++ SYMBOLS), false, false, true, false, false⟩

/-- Default configuration producing a single password. -/
def cfgOne : Config :=
  ⟨8, 1, true, false, true, false, false, none, false, false, true, false, false⟩

/-- Default configuration with uppercase letters forbidden. -/
def cfgNoCap : Config :=
  ⟨8, 160, true, true, true, false, false, none, false, false, true, false, false⟩

/-- Twelve concrete passwords for the column layout instance. -/
def ps12 : List String :=
  ["p0", "p1", "p2", "p3", "p4", "p5", "p6", "p7", "p8", "p9", "pA", "pB"]

/-! Claim theorems. -/

/-- Claim C1, counterexample: with the uppercase requirement active, not
forbidden, and its filtered class non-empty, the program still returns a
password with no uppercase letter — in secure mode because
generate_secure_password never runs apply_requirements, and in memorable mode
because the digit injection can overwrite the freshly injected uppercase
letter (here both injections land on position 0). -/
theorem requirement_presence_counterexample :
    (generate_passwords cfgSecure1 [0] = .ok ([[97]], [])
      ∧ (cfgSecure1.capitalize && !cfgSecure1.no_capitalize) = true
      ∧ upper_filtered cfgSecure1 ≠ []
      ∧ ∀ c ∈ [97], isUpperByte c = false)
    ∧ (generate_memorable_password 8 cfgDefault (List.replicate 12 0)
        = .ok ([48, 97, 98, 97, 98, 97, 98, 97], [])
      ∧ (cfgDefault.capitalize && !cfgDefault.no_capitalize) = true
      ∧ upper_filtered cfgDefault ≠ []
      ∧ ∀ c ∈ [48, 97, 98, 97, 98, 97, 98, 97], isUpperByte c = false) :=
  ⟨⟨rfl, rfl, by decide, by decide⟩, ⟨rfl, rfl, by decide, by decide⟩⟩

/-- Claim C1 (amended): in memorable mode (no_vowels unset, length at least 1)
the enforced password always contains the class of the LAST active
requirement with a non-empty filtered alphabet: a symbol when the symbol flag
is set; otherwise a digit when digits are required; otherwise an uppercase
letter when uppercase is required. Earlier classes can be overwritten by later
injections, and secure mode runs no enforcement at all. -/
theorem last_requirement_present (cfg : Config) (len : Nat) (rng rng2 pw : List Nat)
    (hnv : cfg.no_vowels = false) (hlen : 1 ≤ len)
    (hgen : generate_memorable_password len cfg rng = .ok (pw, rng2)) :
    (cfg.symbols = true → symbols_filtered cfg ≠ [] →
        ∃ c ∈ pw, SYMBOLS.contains c = true)
    ∧ (cfg.symbols = false → (cfg.numerals && !cfg.no_numerals) = true →
        numerals_filtered cfg ≠ [] → ∃ c ∈ pw, isDigitByte c = true)
    ∧ (cfg.symbols = false → (cfg.numerals && !cfg.no_numerals) = false →
        (cfg.capitalize && !cfg.no_capitalize) = true → upper_filtered cfg ≠ [] →
          ∃ c ∈ pw, isUpperByte c = true) := by
  unfold generate_memorable_password at hgen
  rw [if_neg (by simp [hnv])] at hgen
  split at hgen
  · dsimp only at hgen
    split at hgen
    · cases hgen
    · rename_i pw1 rng1 hml
      have hne : pw1 ≠ [] := by
        have hl := mem_loop_length hml
        intro hnil
        rw [hnil] at hl
        simp at hl
        omega
      exact ⟨fun hs hsf => apply_requirements_symbol_ensured hs hsf hne hgen,
        fun hs hn hnf => apply_requirements_digit_ensured hs hn hnf hne hgen,
        fun hs hn hc huf => apply_requirements_upper_ensured hs hn hc huf hne hgen⟩
  · dsimp only at hgen
    split at hgen
    · cases hgen
    · rename_i pw1 rng1 hml
      have hne : pw1 ≠ [] := by
        have hl := mem_loop_length hml
        intro hnil
        rw [hnil] at hl
        simp at hl
        omega
      exact ⟨fun hs hsf => apply_requirements_symbol_ensured hs hsf hne hgen,
        fun hs hn hnf => apply_requirements_digit_ensured hs hn hnf hne hgen,
        fun hs hn hc huf => apply_requirements_upper_ensured hs hn hc huf hne hgen⟩

/-- Witness for last_requirement_present at a concrete input. -/
theorem last_requirement_present_instance :
    ∃ c ∈ [33, 97, 98, 97], SYMBOLS.contains c = true :=
  (last_requirement_present cfgSymbols4 4 (List.replicate 10 0) [] [33, 97, 98, 97]
    rfl (by omega) rfl).1 rfl (by decide)

/-- Claim C2: with a non-empty sub-alphabet and enough entropy, the rejection
loop of pattern generation always returns a character, consuming at least one
and at most 101 entropy bytes; it never fails for exclusion reasons. -/
theorem pick_char_bounded (cs : List Nat) (cfg : Config) (rng : List Nat)
    (hcs : cs ≠ []) (hrng : 101 ≤ rng.length) :
    ∃ c k, 1 ≤ k ∧ k ≤ 101 ∧ pick_char cs cfg rng = .ok (c, rng.drop k) :=
  pick_fuel_spec (by omega) hrng hcs

/-- Witness for pick_char_bounded at a concrete input. -/
theorem pick_char_bounded_instance :
    ∃ c k, 1 ≤ k ∧ k ≤ 101 ∧
      pick_char CONSONANTS cfgDefault (List.replicate 101 0)
        = .ok (c, (List.replicate 101 0).drop k) :=
  pick_char_bounded CONSONANTS cfgDefault (List.replicate 101 0) (by decide) (by decide)

/-- Claim C3, counterexample: with excludeAmbiguous set there is an entropy
stream under which the generated and enforced pattern password contains the
ambiguous byte 108 (the letter l), accepted by the 100-retry fallback. -/
theorem ambiguous_fallback_counterexample :
    cfgPatternAmb.ambiguous = true
    ∧ generate_memorable_password 1 cfgPatternAmb (List.replicate 101 8) = .ok ([108], [])
    ∧ AMBIGUOUS.contains 108 = true := by
  refine ⟨rfl, ?_, by decide⟩
  set_option maxRecDepth 8192 in exact rfl

/-- Claim C3 (amended): with excludeAmbiguous set, no character of a
uniform-mode password is ambiguous; the pattern-mode rejection loop returns
an ambiguous character only through the 100-retry fallback, after consuming
exactly 101 entropy bytes at that position; and requirement enforcement never
introduces an ambiguous character. -/
theorem ambiguous_exclusion_amended (cfg : Config) (hA : cfg.ambiguous = true) :
    (∀ len rng pw rng2, generate_secure_password len cfg rng = .ok (pw, rng2) →
        ∀ c ∈ pw, AMBIGUOUS.contains c = false)
    ∧ (∀ cs rng c rng1, pick_char cs cfg rng = .ok (c, rng1) →
        AMBIGUOUS.contains c = true → rng1 = rng.drop 101)
    ∧ (∀ pw rng pw3 rng3, (∀ c ∈ pw, AMBIGUOUS.contains c = false) →
        apply_requirements pw cfg rng = .ok (pw3, rng3) →
          ∀ c ∈ pw3, AMBIGUOUS.contains c = false) := by
  refine ⟨?_, ?_, ?_⟩
  · intro len rng pw rng2 h c hc
    unfold generate_secure_password at h
    by_cases hempty : build_charset cfg = []
    · rw [if_pos hempty] at h
      simp only [Except.ok.injEq, Prod.mk.injEq] at h
      rw [← h.1] at hc
      rw [List.eq_of_mem_replicate hc]
      decide
    · rw [if_neg hempty] at h
      have hmem := secure_loop_mem hempty h c hc
      have hchar := mem_build_charset.mp hmem
      rcases Bool.eq_false_or_eq_true (AMBIGUOUS.contains c) with ht | hf
      · exact absurd ⟨hA, ht⟩ hchar.2.1
      · exact hf
  · intro cs rng c rng1 h hc
    exact pick_fuel_amb hA h hc
  · intro pw rng pw3 rng3 hall h
    exact apply_requirements_nonamb hA hall h

/-- Witness for ambiguous_exclusion_amended at a concrete input. -/
theorem ambiguous_exclusion_amended_instance :
    AMBIGUOUS.contains 97 = false :=
  (ambiguous_exclusion_amended cfgAmb rfl).1 1 [0] [97] [] rfl 97 (by decide)

/-- Claim C4: for every configuration with requested length at least 1, a
successfully generated password (either mode, including the empty-alphabet
fallback and after requirement enforcement) has exactly the requested
length. -/
theorem generated_length_matches (cfg : Config) (rng pw rng2 : List Nat)
    (hlen : 1 ≤ cfg.pw_length)
    (h : generate_one cfg rng = .ok (pw, rng2)) : pw.length = cfg.pw_length :=
  generate_one_length h

/-- Witness for generated_length_matches at a concrete input. -/
theorem generated_length_matches_instance :
    ([48, 97, 98, 97, 98, 97, 98, 97] : List Nat).length = cfgDefault.pw_length :=
  generated_length_matches cfgDefault (List.replicate 12 0)
    [48, 97, 98, 97, 98, 97, 98, 97] [] (by decide) rfl

/-- Claim C5, counterexample: with uppercase required and not forbidden but
every uppercase letter in the user exclusion list, the built charset contains
no uppercase letter, so containing uppercase letters is not equivalent to the
uppercase class being required and not forbidden. -/
theorem charset_upper_iff_counterexample :
    (cfgRemoveUpper.capitalize && !cfgRemoveUpper.no_capitalize) = true
    ∧ ¬((∃ c ∈ build_charset cfgRemoveUpper, isUpperByte c = true) ↔
        (cfgRemoveUpper.capitalize && !cfgRemoveUpper.no_capitalize) = true) :=
  ⟨rfl, fun hiff => absurd (hiff.mpr rfl) (by decide)⟩

/-- Claim C5 (amended): a byte is in the built charset exactly when it belongs
to the lowercase class or to an enabled-and-not-forbidden class, and survives
the ambiguity filter, the vowel filter and the user exclusion list; and the
three removal filters commute pairwise, so their order does not affect the
result. -/
theorem build_charset_characterization (cfg : Config) (c : Nat) (l : List Nat) :
    (c ∈ build_charset cfg ↔
      (c ∈ LOWERCASE
        ∨ ((cfg.capitalize && !cfg.no_capitalize) = true ∧ c ∈ UPPERCASE)
        ∨ ((cfg.numerals && !cfg.no_numerals) = true ∧ c ∈ NUMERALS)
        ∨ (cfg.symbols = true ∧ c ∈ SYMBOLS))
      ∧ ¬(cfg.ambiguous = true ∧ AMBIGUOUS.contains c = true)
      ∧ ¬(cfg.no_vowels = true ∧ VOWELS.contains c = true)
      ∧ inRemove cfg c = false)
    ∧ retainAmbiguous cfg (retainVowels cfg l) = retainVowels cfg (retainAmbiguous cfg l)
    ∧ retainAmbiguous cfg (retainRemoved cfg l) = retainRemoved cfg (retainAmbiguous cfg l)
    ∧ retainVowels cfg (retainRemoved cfg l) = retainRemoved cfg (retainVowels cfg l) :=
  ⟨mem_build_charset, retainAmbiguous_retainVowels cfg l,
    retainAmbiguous_retainRemoved cfg l, retainVowels_retainRemoved cfg l⟩

/-- Claim C6: with excludeVowels set, pattern-mode generation is exactly
uniform-mode generation over the full class-filtered alphabet, consuming the
same entropy. -/
theorem no_vowels_reduces_to_secure (cfg : Config) (hnv : cfg.no_vowels = true) :
    ∀ (len : Nat) (rng : List Nat),
      generate_memorable_password len cfg rng = generate_secure_password len cfg rng := by
  intro len rng
  unfold generate_memorable_password
  rw [if_pos hnv]

/-- Witness for no_vowels_reduces_to_secure at a concrete input. -/
theorem no_vowels_reduces_to_secure_instance :
    cfgNoVowels.no_vowels = true
    ∧ generate_memorable_password 3 cfgNoVowels [1, 2, 3]
        = generate_secure_password 3 cfgNoVowels [1, 2, 3] :=
  ⟨rfl, no_vowels_reduces_to_secure cfgNoVowels rfl 3 [1, 2, 3]⟩

/-- Claim C7: enforcing a password that already satisfies every active
requirement is a no-op: the bytes are unchanged and no entropy is consumed. -/
theorem enforcement_noop_on_compliant (cfg : Config) (pw rng : List Nat)
    (hU : (cfg.capitalize && !cfg.no_capitalize) = true → pw.any isUpperByte = true)
    (hN : (cfg.numerals && !cfg.no_numerals) = true → pw.any isDigitByte = true)
    (hS : cfg.symbols = true → pw.any (fun c => SYMBOLS.contains c) = true) :
    apply_requirements pw cfg rng = .ok (pw, rng) :=
  apply_requirements_noop hU hN hS

/-- Witness for enforcement_noop_on_compliant at a concrete input. -/
theorem enforcement_noop_on_compliant_instance :
    apply_requirements [65, 48, 98] cfgDefault [9, 9] = .ok ([65, 48, 98], [9, 9]) :=
  enforcement_noop_on_compliant cfgDefault [65, 48, 98] [9, 9]
    (fun _ => by decide) (fun _ => by decide) (fun h => absurd h (by decide))

/-- Claim C8, counterexample: for twelve passwords the column layout produces
three rows of four entries each, not a 3-by-5 grid with a short last row. -/
theorem columns_twelve_counterexample :
    ((row_buffers ps12).getD 0 []).length = 4
    ∧ ¬(∀ row ∈ row_buffers ps12, row.length = 5) := by
  exact ⟨by decide, by decide⟩

/-- Claim C8 (amended): for twelve passwords in column mode the printer lays
them out in ceil(12 / 5) = 3 rows filled column-major, so row r holds the
passwords at indices r, r + 3, r + 6, r + 9 (a 3-by-4 grid: the fixed
5-column grid has an empty fifth column) and three lines are printed, each
entry left-justified to the maximum width of its column. -/
theorem columns_layout (s0 s1 s2 s3 s4 s5 s6 s7 s8 s9 s10 s11 : String) :
    row_buffers [s0, s1, s2, s3, s4, s5, s6, s7, s8, s9, s10, s11]
      = [[s0, s3, s6, s9], [s1, s4, s7, s10], [s2, s5, s8, s11]]
    ∧ (print_passwords [s0, s1, s2, s3, s4, s5, s6, s7, s8, s9, s10, s11] true)
      = [render_row [s0, s3, s6, s9]
            (max_widths (row_buffers [s0, s1, s2, s3, s4, s5, s6, s7, s8, s9, s10, s11])),
          render_row [s1, s4, s7, s10]
            (max_widths (row_buffers [s0, s1, s2, s3, s4, s5, s6, s7, s8, s9, s10, s11])),
          render_row [s2, s5, s8, s11]
            (max_widths (row_buffers [s0, s1, s2, s3, s4, s5, s6, s7, s8, s9, s10, s11]))] := by
  have hrb : row_buffers [s0, s1, s2, s3, s4, s5, s6, s7, s8, s9, s10, s11]
      = [[s0, s3, s6, s9], [s1, s4, s7, s10], [s2, s5, s8, s11]] := by
    simp [row_buffers, COLUMNS, List.enum]
  refine ⟨hrb, ?_⟩
  unfold print_passwords
  rw [if_neg (by simp [COLUMNS])]
  rw [hrb]
  rfl

/-- Claim C9: a successful run returns exactly the requested number of
passwords (an entropy failure aborts the whole batch, never a partial one);
an empty built charset is not an error but yields the deterministic
fallback; and empty filtered requirement classes make enforcement silently
skip rather than fail. -/
theorem error_policy :
    (∀ cfg rng ps rng2, generate_passwords cfg rng = .ok (ps, rng2) →
        ps.length = cfg.num_pw)
    ∧ (∀ cfg len rng, build_charset cfg = [] →
        generate_secure_password len cfg rng = .ok (List.replicate len 97, rng))
    ∧ (∀ cfg pw rng, upper_filtered cfg = [] → numerals_filtered cfg = [] →
        symbols_filtered cfg = [] → apply_requirements pw cfg rng = .ok (pw, rng)) := by
  refine ⟨?_, ?_, ?_⟩
  · intro cfg rng ps rng2 h
    unfold generate_passwords at h
    exact gen_loop_length h
  · intro cfg len rng h
    unfold generate_secure_password
    rw [if_pos h]
  · intro cfg pw rng hU hN hS
    exact apply_requirements_empty hU hN hS

/-- Witness for error_policy at concrete inputs. -/
theorem error_policy_instance :
    ([[48, 97, 98, 97, 98, 97, 98, 97]] : List (List Nat)).length = cfgOne.num_pw
    ∧ generate_secure_password 3 cfgRemoveAll [5] = .ok (List.replicate 3 97, [5])
    ∧ apply_requirements [98] cfgRemoveClasses [1, 2, 3] = .ok ([98], [1, 2, 3]) :=
  ⟨error_policy.1 cfgOne (List.replicate 12 0) [[48, 97, 98, 97, 98, 97, 98, 97]] [] rfl,
    error_policy.2.1 cfgRemoveAll 3 [5] (by decide),
    error_policy.2.2 cfgRemoveClasses [98] [1, 2, 3] (by decide) (by decide) (by decide)⟩

/-- Claim C10: on a length-0 password with an active, unmet requirement whose
filtered class is non-empty, enforcement takes a byte modulo 0 (the uppercase
case, and the digit case when uppercase is inactive); on any non-empty
password enforcement never divides by zero, and with requested length at
least 1 the whole pipeline never divides by zero. -/
theorem modulo_zero_boundary :
    (∀ cfg b1 b2 rest, (cfg.capitalize && !cfg.no_capitalize) = true →
        upper_filtered cfg ≠ [] →
          apply_requirements [] cfg (b1 :: b2 :: rest) = .error .divZero)
    ∧ (∀ cfg b1 b2 rest, (cfg.capitalize && !cfg.no_capitalize) = false →
        (cfg.numerals && !cfg.no_numerals) = true → numerals_filtered cfg ≠ [] →
          apply_requirements [] cfg (b1 :: b2 :: rest) = .error .divZero)
    ∧ (∀ cfg pw rng, pw ≠ [] → apply_requirements pw cfg rng ≠ .error .divZero)
    ∧ (∀ cfg rng, 1 ≤ cfg.pw_length → generate_passwords cfg rng ≠ .error .divZero) := by
  refine ⟨?_, ?_, ?_, ?_⟩
  · intro cfg b1 b2 rest hact huf
    have hcond :
        (cfg.capitalize && !cfg.no_capitalize && !([] : List Nat).any isUpperByte) = true := by
      rw [hact]
      rfl
    have h1 : inject_upper [] cfg (b1 :: b2 :: rest) = .error .divZero := by
      unfold inject_upper
      rw [if_pos hcond, if_neg huf]
      simp only [readByte]
      rw [if_neg (by simpa [List.length_eq_zero] using huf)]
      simp
    exact apply_requirements_upper_err h1
  · intro cfg b1 b2 rest hcap hact hnf
    have h1 : inject_upper [] cfg (b1 :: b2 :: rest) = .ok ([], b1 :: b2 :: rest) :=
      inject_upper_noop (fun hc => absurd hc (by rw [hcap]; simp))
    have h2 : inject_numeral [] cfg (b1 :: b2 :: rest) = .error .divZero := by
      unfold inject_numeral
      rw [if_pos hact]
      rw [if_neg (by decide : ¬([] : List Nat).any isDigitByte = true)]
      rw [if_neg hnf]
      simp only [readByte]
      rw [if_neg (by simpa [List.length_eq_zero] using hnf)]
      simp
    rw [apply_requirements_upper_ok h1, h2]
  · intro cfg pw rng hne
    exact apply_requirements_ne_divZero hne
  · intro cfg rng hlen
    unfold generate_passwords
    exact gen_loop_ne_divZero hlen

/-- Witness for modulo_zero_boundary at concrete inputs. -/
theorem modulo_zero_boundary_instance :
    apply_requirements [] cfgDefault [0, 0] = .error .divZero
    ∧ apply_requirements [] cfgNoCap [0, 0] = .error .divZero
    ∧ apply_requirements [98, 97] cfgDefault [] ≠ .error .divZero
    ∧ generate_passwords cfgOne [0] ≠ .error .divZero :=
  ⟨modulo_zero_boundary.1 cfgDefault 0 0 [] rfl (by decide),
    modulo_zero_boundary.2.1 cfgNoCap 0 0 [] rfl rfl (by decide),
    modulo_zero_boundary.2.2.1 cfgDefault [98, 97] [] (by decide),
    modulo_zero_boundary.2.2.2 cfgOne [0] (by decide)⟩

end Pwgen
